import Mathlib

/-!
Verification development for the student-selector application (three revisions:
selection_r3.py, selection_r5.py, studentselector.py; the latter is the latest
revision with per-class session memory and is the authoritative source for the
core state machine).  Pure functions of the program are embedded as Lean
functions; the timer-driven animation is embedded as a step function on an
explicit state type, with wall-clock times and pixel phases modelled as exact
rationals.  The only non-rational arithmetic in the source, the ease-out speed
curve with exponent 2.1, is embedded over the reals with Real.rpow.
-/

/-! ### Python string helpers -/

/-- List-level test that the first list is an initial segment of the second. -/
def leadsWith : List Char → List Char → Bool
  | [], _ => true
  | _ :: _, [] => false
  | a :: as, b :: bs => a = b && leadsWith as bs

/-- List-level contiguous-subsequence test used to model the Python substring
operator (needle occurring inside hay). -/
def containsSeq : List Char → List Char → Bool
  | [], needle => needle.isEmpty
  | h :: t, needle => leadsWith needle (h :: t) || containsSeq t needle

/-- Models the Python expression needle in hay on strings. -/
def pyIn (needle hay : String) : Bool := containsSeq hay.toList needle.toList

/-- Models Python str.lower (character-wise lowering). -/
def pyLower (s : String) : String := String.mk (s.data.map Char.toLower)

/-- Models Python str.strip (drop whitespace from both ends). -/
def pyStrip (s : String) : String :=
  String.mk (((s.data.dropWhile Char.isWhitespace).reverse.dropWhile
      Char.isWhitespace).reverse)

/-! ### Roster loading (load_students_by_class, studentselector.py lines 153-182)

The CSV file is modelled as an optional list of rows (none = the file is
missing), each row a list of column strings. -/

/-- Models classes.setdefault(class_name, []).append(student_name) on an
insertion-ordered dictionary represented as an association list. -/
def addStudent : List (String × List String) → String → String → List (String × List String)
  | [], c, s => [(c, [s])]
  | p :: rest, c, s =>
      if p.1 = c then (p.1, p.2 ++ [s]) :: rest else p :: addStudent rest c s

/-- Header auto-detection (lines 171-173): the comma-joined row, stripped and
lowered, must contain "class" and one of "student" or "name". -/
def isHeaderRow (row : List String) : Bool :=
  let header := pyLower (pyStrip (String.intercalate "," row))
  pyIn "class" header && (pyIn "student" header || pyIn "name" header)

/-- The row loop of load_students_by_class (lines 165-178).  The Bool argument
is the first flag; rows with fewer than two columns are skipped before the
header check, rows whose stripped class or student field is empty are skipped
after it. -/
def loadLoop : List (List String) → Bool → List (String × List String) →
    List (String × List String)
  | [], _, acc => acc
  | row :: rest, first, acc =>
      if row.isEmpty || row.length < 2 then loadLoop rest first acc
      else if first && isHeaderRow row then loadLoop rest false acc
      else
        let c := pyStrip (row.getD 0 "")
        let s := pyStrip (row.getD 1 "")
        if c = "" || s = "" then loadLoop rest false acc
        else loadLoop rest false (addStudent acc c s)

/-- Worker for pyDedup; the first argument is the set of names already kept. -/
def dedupGo : List String → List String → List String
  | _, [] => []
  | seen, x :: xs => if x ∈ seen then dedupGo seen xs else x :: dedupGo (x :: seen) xs

/-- Models list(dict.fromkeys(l)) (line 181): de-duplication keeping the first
occurrence of each name, preserving order. -/
def pyDedup (l : List String) : List String := dedupGo [] l

/-- load_students_by_class: fails when the file is missing, otherwise runs the
row loop and de-duplicates every per-class list. -/
def loadStudentsByClass (rosterRows : Option (List (List String))) :
    Except String (List (String × List String)) :=
  match rosterRows with
  | none => Except.error "Missing roster file"
  | some rows => Except.ok ((loadLoop rows true []).map (fun p => (p.1, pyDedup p.2)))

/-! ### Dictionary primitives for the application state -/

/-- Key lookup in an insertion-ordered dictionary (Python d[k] / k in d). -/
def alookup {α : Type} (k : String) : List (String × α) → Option α
  | [] => none
  | p :: rest => if p.1 = k then some p.2 else alookup k rest

/-- Key assignment d[k] = v on an insertion-ordered dictionary: replaces in
place when the key exists, appends otherwise. -/
def ainsert {α : Type} (k : String) (v : α) : List (String × α) → List (String × α)
  | [] => [(k, v)]
  | p :: rest => if p.1 = k then (k, v) :: rest else p :: ainsert k v rest

/-! ### Session round logic (_next_student, _finalize pool removal) -/

/-- Outcome of _next_student (studentselector.py lines 607-617). -/
inductive NextOutcome
  | backToMain
  | summary
  | round (winner : String)
deriving DecidableEq, Repr

/-- Models random.choice(pool): the choice oracle is an arbitrary index,
reduced modulo the pool size; random.choice always returns some element of a
non-empty pool. -/
def pickFrom (pool : List String) (pick : ℕ) : String := pool.getD (pick % pool.length) ""

/-- _next_student: exit check first, then empty-pool routing to the grades
summary, otherwise a round with a freshly committed winner. -/
def nextStudent (exitRequested : Bool) (pool : List String) (pick : ℕ) : NextOutcome :=
  if exitRequested then NextOutcome.backToMain
  else if pool = [] then NextOutcome.summary
  else NextOutcome.round (pickFrom pool pick)

/-- The pool removal in _finalize (lines 953-954): a removal guarded by a
membership check, which is exactly List.erase (remove the first occurrence when
present, leave the list unchanged otherwise). -/
def removeWinner (pool : List String) (w : String) : List String := pool.erase w

/-- One completed round: commit a winner from the pool, then remove it at
finalization. -/
def completeRound (pool : List String) (pick : ℕ) : String × List String :=
  (pickFrom pool pick, removeWinner pool (pickFrom pool pick))

/-- A session: a sequence of completed rounds, each entered through the
empty-pool check of _next_student.  Returns the winners in order and the final
pool. -/
def runSession : List ℕ → List String → List String × List String
  | [], pool => ([], pool)
  | pick :: picks, pool =>
      if pool = [] then ([], pool)
      else
        ((completeRound pool pick).1 :: (runSession picks (completeRound pool pick).2).1,
         (runSession picks (completeRound pool pick).2).2)

/-! ### Application state and _start_session (studentselector.py lines 579-617) -/

/-- The mutable application fields touched by _start_session.  The
exitRequested flag is the sticky UI exit flag; the three dictionaries are the
per-class roster, session pools and grade books. -/
structure AppState where
  classes : List (String × List String)
  sessionPools : List (String × List String)
  gradeBooks : List (String × List (String × String))
  activeClass : Option String
  exitRequested : Bool
deriving DecidableEq, Repr

/-- Observable outcome of a _start_session call. -/
inductive StartOutcome
  | uerror (msg : String)
  | summary
  | backToMain
  | round (winner : String)
deriving DecidableEq, Repr

/-- The tail of _start_session reached after validation: ensure a grade-book
entry, set the active class, read the session pool, and either open the grades
summary (empty pool) or hand off to _next_student. -/
def continueStart (app : AppState) (cn : String) (pick : ℕ) : AppState × StartOutcome :=
  let app1 := if alookup cn app.gradeBooks = none
              then { app with gradeBooks := ainsert cn [] app.gradeBooks } else app
  let app2 := { app1 with activeClass := some cn }
  let sess := (alookup cn app2.sessionPools).getD []
  if sess = [] then (app2, StartOutcome.summary)
  else if app2.exitRequested then (app2, StartOutcome.backToMain)
  else (app2, StartOutcome.round (pickFrom sess pick))

/-- _start_session: clears the exit flag, validates the selected class, creates
the session pool from the roster on first use (erroring when the roster is
empty), then continues as continueStart. -/
def startSession (app : AppState) (selected : String) (pick : ℕ) : AppState × StartOutcome :=
  let app0 := { app with exitRequested := false }
  let cn := pyStrip selected
  if cn = "Select a Class" ∨ alookup cn app0.classes = none then
    (app0, StartOutcome.uerror "Please select a valid class.")
  else
    match alookup cn app0.sessionPools with
    | none =>
        let roster := (alookup cn app0.classes).getD []
        if roster = [] then
          (app0, StartOutcome.uerror ("No students found for " ++ cn ++ "."))
        else continueStart { app0 with sessionPools := ainsert cn roster app0.sessionPools }
               cn pick
    | some _ => continueStart app0 cn pick

/-! ### The reel animation (_show_slot_window / _frame, studentselector.py 890-1030)

Times are seconds and phases are pixels, both exact rationals.  The per-tick
spin advance cur_rows_per_sec * row_h * dt is a positive real in the source;
its value is taken as an input of the tick function (the speed curve itself,
which uses the irrational exponent 2.1, is embedded separately over the
reals). -/

/-- The float tolerance 1e-6 of the rotation loop (line 985). -/
def slotEps : ℚ := 1 / 1000000

/-- final_roll_time = 0.65 (line 902). -/
def finalRollTime : ℚ := 65 / 100

/-- The rotation loop of _frame (lines 985-987): while phase is at least
row_h - 1e-6, subtract one row height and count one rotation event.  Returns
the residual phase and the number of rotation events. -/
def rollLoop (rh : ℚ) (hrh : 0 < rh) (phase : ℚ) : ℚ × ℕ :=
  if rh - slotEps ≤ phase then
    ((rollLoop rh hrh (phase - rh)).1, (rollLoop rh hrh (phase - rh)).2 + 1)
  else (phase, 0)
termination_by (⌈(phase + slotEps) / rh⌉).toNat
decreasing_by
all_goals
  have h0 : rh ≠ 0 := ne_of_gt hrh
  have hx : (phase - rh + slotEps) / rh = (phase + slotEps) / rh - 1 := by
    rw [show phase - rh + slotEps = (phase + slotEps) - rh by ring, sub_div, div_self h0]
  have h1 : (1 : ℚ) ≤ (phase + slotEps) / rh := by
    rw [le_div_iff₀ hrh]
    linarith
  have h2 : (0 : ℤ) < ⌈(phase + slotEps) / rh⌉ := Int.ceil_pos.mpr (by linarith)
  have h3 : (phase + slotEps) / rh - 1 = (phase + slotEps) / rh - ((1 : ℤ) : ℚ) := by norm_num
  have h4 : ⌈(phase - rh + slotEps) / rh⌉ = ⌈(phase + slotEps) / rh⌉ - 1 := by
    rw [hx, h3, Int.ceil_sub_int]
  simp only [h4]
  omega

/-- A sequence of spinning ticks: each tick adds its advance to the phase and
runs the rotation loop.  Returns the final phase and the total number of
rotation events. -/
def runTicks (rh : ℚ) (hrh : 0 < rh) : List ℚ → ℚ → ℚ × ℕ
  | [], p => (p, 0)
  | adv :: advs, p =>
      ((runTicks rh hrh advs (rollLoop rh hrh (p + adv)).1).1,
       (rollLoop rh hrh (p + adv)).2 + (runTicks rh hrh advs (rollLoop rh hrh (p + adv)).1).2)

/-- progress_t of the settle branch (line 995): elapsed settle time over the
clamped settle duration, capped at 1. -/
def settleProgress (selapsed : ℚ) : ℚ := min 1 (selapsed / max (1 / 1000) finalRollTime)

/-- The settle interpolation (lines 996-997): ease-out cubic from the phase
recorded at settle entry to exactly one row height.  The phase is a pure
function of the elapsed settle time, recomputed from scratch on every tick. -/
def settlePhase (rh fsp selapsed : ℚ) : ℚ :=
  fsp + (rh - fsp) * (1 - (1 - settleProgress selapsed) ^ 3)

/-- Per-round animation constants: row height, round duration, the wall-clock
start time, and the winner committed by _next_student. -/
structure RoundCfg where
  rowH : ℚ
  duration : ℚ
  startTime : ℚ
  finalStudent : String
deriving DecidableEq, Repr

/-- The mutable state of one slot-window round: the liveness flag, animation
phase and clocks, the raw names of the three reel slots, the session pool
shared with the controller, and the DONE marker. -/
structure RoundSt where
  alive : Bool
  phase : ℚ
  lastTime : ℚ
  finalMode : Bool
  finalStartTime : ℚ
  finalStartPhase : ℚ
  prevName : String
  curName : String
  nextName : String
  pool : List String
  done : Bool
deriving DecidableEq, Repr

/-- _rotate_once (lines 905-912) at the raw-name level: shift current to
previous, next to current, and draw a fresh filler for next. -/
def rotOnce (filler : String) (r : String × String × String) : String × String × String :=
  (r.2.1, r.2.2, filler)

/-- n successive rotations consuming fillers from the oracle stream. -/
def rotMany : ℕ → (ℕ → String) → String × String × String → String × String × String
  | 0, _, r => r
  | n + 1, fillers, r => rotMany n (fun i => fillers (i + 1)) (rotOnce (fillers 0) r)

/-- One tick of _frame (lines 959-1006).  The liveness guard is first; then the
one-time transition into final mode (forcing the next slot to the committed
winner); then either the spinning branch (advance the phase by the supplied
spin advance and run the rotation loop) or the settle branch (recompute the
phase by settlePhase and, at full progress, perform _finalize: the winner
becomes the center name, the winner is removed from the session pool, DONE).
The returned Bool records whether a further tick was scheduled. -/
def frameTick (cfg : RoundCfg) (hrh : 0 < cfg.rowH) (winExists : Bool) (now adv : ℚ)
    (fillers : ℕ → String) (s : RoundSt) : RoundSt × Bool :=
  if s.alive = false ∨ winExists = false then (s, false)
  else
    let s1 : RoundSt := { s with lastTime := now }
    let s2 : RoundSt :=
      if s1.finalMode = false ∧ cfg.duration ≤ now - cfg.startTime then
        { s1 with finalMode := true, finalStartTime := now, finalStartPhase := s1.phase,
                  nextName := cfg.finalStudent }
      else s1
    if s2.finalMode = false then
      let r := rollLoop cfg.rowH hrh (s2.phase + adv)
      let reel := rotMany r.2 fillers (s2.prevName, s2.curName, s2.nextName)
      ({ s2 with phase := r.1, prevName := reel.1, curName := reel.2.1,
                 nextName := reel.2.2 }, true)
    else
      let selapsed := now - s2.finalStartTime
      let s3 : RoundSt := { s2 with phase := settlePhase cfg.rowH s2.finalStartPhase selapsed }
      if 1 ≤ settleProgress selapsed then
        ({ s3 with curName := cfg.finalStudent, pool := s3.pool.erase cfg.finalStudent,
                   done := true }, false)
      else (s3, true)

/-- One tick of _frame_no_effect (lines 1008-1020, the effects-disabled mode):
same liveness guard; when the duration has elapsed, _finalize fires directly
(winner centered, pool removal, DONE, no rescheduling). -/
def noEffectTick (cfg : RoundCfg) (winExists : Bool) (now : ℚ) (s : RoundSt) : RoundSt × Bool :=
  if s.alive = false ∨ winExists = false then (s, false)
  else if cfg.duration ≤ now - cfg.startTime then
    ({ s with curName := cfg.finalStudent, pool := s.pool.erase cfg.finalStudent,
              done := true }, false)
  else (s, true)

/-- on_close (lines 665-677): drops the liveness flag so that every scheduled
tick is suppressed from then on.  on_escape calls on_close. -/
def onCloseRound (s : RoundSt) : RoundSt := { s with alive := false }

/-! ### The spinning speed curve (studentselector.py lines 978-983), over ℝ -/

/-- max_rows_per_sec = 7.5 (line 895). -/
noncomputable def maxRowsPerSec : ℝ := 7.5

/-- min_rows_per_sec = 1.0 (line 896). -/
noncomputable def minRowsPerSec : ℝ := 1.0

/-- The ease-out exponent 2.1 of the target-speed curve (line 980). -/
noncomputable def spinEaseExp : ℝ := 2.1

/-- speed_smooth_tau = 0.18 (line 898). -/
noncomputable def speedSmoothTau : ℝ := 0.18

/-- Clamped normalized progress t (line 979). -/
noncomputable def clampT (elapsed duration : ℝ) : ℝ :=
  max 0 (min 1 (elapsed / max 0.001 duration))

/-- target_rows (line 980): ease-out curve from max speed down to min speed. -/
noncomputable def targetRowsPerSec (t : ℝ) : ℝ :=
  minRowsPerSec + (maxRowsPerSec - minRowsPerSec) * (1 - t) ^ spinEaseExp

/-- The low-pass blending factor alpha (line 981). -/
noncomputable def smoothAlpha (dt : ℝ) : ℝ := min 1 (dt / max 0.001 speedSmoothTau)

/-- The exponential low-pass update of cur_rows_per_sec (line 982). -/
noncomputable def smoothedSpeed (cur target dt : ℝ) : ℝ := cur + (target - cur) * smoothAlpha dt

/-- The instantaneous speed used on a spinning tick (lines 979-982). -/
noncomputable def spinSpeedTick (cur elapsed duration dt : ℝ) : ℝ :=
  smoothedSpeed cur (targetRowsPerSec (clampT elapsed duration)) dt

/-- The phase advance of a spinning tick (line 983). -/
noncomputable def spinPhaseAdvance (cur elapsed duration dt rowH : ℝ) : ℝ :=
  spinSpeedTick cur elapsed duration dt * rowH * dt

/-! ### Lemmas about the rotation loop -/

/-- Unfolding equation of the rotation loop. -/
theorem rollLoop_eq (rh : ℚ) (hrh : 0 < rh) (phase : ℚ) :
    rollLoop rh hrh phase =
      if rh - slotEps ≤ phase then
        ((rollLoop rh hrh (phase - rh)).1, (rollLoop rh hrh (phase - rh)).2 + 1)
      else (phase, 0) := by
  conv_lhs => rw [rollLoop]

/-- The rotation loop subtracts one row height per rotation event, leaves the
phase strictly below the loop threshold, and never takes the phase below the
negated tolerance. -/
theorem rollLoop_invariant (rh : ℚ) (hrh : 0 < rh) (phase : ℚ) :
    (rollLoop rh hrh phase).1 = phase - ((rollLoop rh hrh phase).2 : ℚ) * rh ∧
    (rollLoop rh hrh phase).1 < rh - slotEps ∧
    (-slotEps ≤ phase → -slotEps ≤ (rollLoop rh hrh phase).1) := by
  induction phase using rollLoop.induct rh hrh with
  | case1 phase h ih =>
    rw [rollLoop_eq rh hrh phase, if_pos h]
    obtain ⟨ih1, ih2, ih3⟩ := ih
    refine ⟨?_, ih2, ?_⟩
    · push_cast
      rw [ih1]; ring
    · intro _
      exact ih3 (by linarith)
  | case2 phase h =>
    rw [rollLoop_eq rh hrh phase, if_neg h]
    exact ⟨by simp, by linarith [not_le.mp h], fun hp => hp⟩

/-- Accumulated form of rollLoop_invariant over a sequence of ticks starting
from any phase inside the resting interval of the loop. -/
theorem runTicks_invariant (rh : ℚ) (hrh : 0 < rh) (advs : List ℚ) :
    ∀ p : ℚ, -slotEps ≤ p → p < rh - slotEps → (∀ a ∈ advs, 0 ≤ a) →
      (runTicks rh hrh advs p).1
          = p + advs.sum - ((runTicks rh hrh advs p).2 : ℚ) * rh ∧
      -slotEps ≤ (runTicks rh hrh advs p).1 ∧
      (runTicks rh hrh advs p).1 < rh - slotEps := by
  induction advs with
  | nil =>
    intro p hlo hhi _
    simp [runTicks, hlo, hhi]
  | cons adv advs ih =>
    intro p hlo hhi hadv
    have hadv0 : (0 : ℚ) ≤ adv := hadv adv (List.mem_cons_self adv advs)
    obtain ⟨r1, r2, r3⟩ := rollLoop_invariant rh hrh (p + adv)
    have hq : -slotEps ≤ (rollLoop rh hrh (p + adv)).1 := r3 (by linarith)
    obtain ⟨i1, i2, i3⟩ := ih (rollLoop rh hrh (p + adv)).1 hq r2
      (fun a ha => hadv a (List.mem_cons_of_mem adv ha))
    refine ⟨?_, i2, i3⟩
    simp only [runTicks, List.sum_cons]
    rw [i1, r1]
    push_cast
    ring

/-- A residual inside the resting interval pins the rotation count to the
epsilon-shifted floor. -/
theorem rotationCount_floor (rh S : ℚ) (hrh : 0 < rh) (N : ℤ)
    (h1 : -slotEps ≤ S - N * rh) (h2 : S - N * rh < rh - slotEps) :
    ⌊(S + slotEps) / rh⌋ = N := by
  rw [Int.floor_eq_iff]
  constructor
  · rw [le_div_iff₀ hrh]; linarith
  · rw [div_lt_iff₀ hrh]; linarith

/-- C3 (counterexample): with row height 64 and a single spinning tick whose
phase advance is 64 - 1e-6, the code performs one rotation event although
floor(total_phase_advanced / row_height) = 0, and the residual phase is
negative, outside [0, row_height).  The claimed exact floor/interval law fails
on the 1e-6 tolerance of the loop threshold. -/
theorem spin_rotation_count_claim_false :
    (runTicks 64 (by norm_num) [64 - slotEps] 0).2 = 1 ∧
    ⌊List.sum [(64 : ℚ) - slotEps] / 64⌋ = 0 ∧
    (runTicks 64 (by norm_num) [64 - slotEps] 0).1 < 0 := by
  have key : rollLoop 64 (by norm_num) ((0 : ℚ) + (64 - slotEps)) = (-slotEps, 1) := by
    rw [rollLoop_eq, if_pos (by norm_num [slotEps])]
    rw [rollLoop_eq, if_neg (by norm_num [slotEps])]
    norm_num
  have e1 : runTicks 64 (by norm_num) [64 - slotEps] 0 = (-slotEps, 1) := by
    simp only [runTicks]
    rw [key]
  refine ⟨by rw [e1], by norm_num [slotEps], by rw [e1]; norm_num [slotEps]⟩

/-- C3 (amended): for any sequence of spinning ticks with nonnegative phase
advances, the number of rotation events equals
floor((total_phase_advanced + 1e-6) / row_height), and after the rotation loop of each tick
the phase lies in [-1e-6, row_height - 1e-6); the same holds for
a single tick started from any phase in that interval. -/
theorem spin_rotation_count_amended (rh : ℚ) (hrh : 0 < rh) (heps : slotEps < rh)
    (advs : List ℚ) (hadv : ∀ a ∈ advs, 0 ≤ a) :
    (((runTicks rh hrh advs 0).2 : ℤ) = ⌊(advs.sum + slotEps) / rh⌋ ∧
     (runTicks rh hrh advs 0).1 = advs.sum - ((runTicks rh hrh advs 0).2 : ℚ) * rh ∧
     -slotEps ≤ (runTicks rh hrh advs 0).1 ∧
     (runTicks rh hrh advs 0).1 < rh - slotEps) ∧
    (∀ p adv : ℚ, -slotEps ≤ p → p < rh - slotEps → 0 ≤ adv →
      ((rollLoop rh hrh (p + adv)).2 : ℤ) = ⌊(p + adv + slotEps) / rh⌋ ∧
      -slotEps ≤ (rollLoop rh hrh (p + adv)).1 ∧
      (rollLoop rh hrh (p + adv)).1 < rh - slotEps) := by
  have heps0 : (0 : ℚ) < slotEps := by norm_num [slotEps]
  constructor
  · obtain ⟨i1, i2, i3⟩ := runTicks_invariant rh hrh advs 0 (by linarith) (by linarith) hadv
    have hsum : (runTicks rh hrh advs 0).1 = advs.sum
        - ((runTicks rh hrh advs 0).2 : ℚ) * rh := by
      rw [i1]; ring
    refine ⟨?_, hsum, i2, i3⟩
    refine (rotationCount_floor rh advs.sum hrh _ ?_ ?_).symm <;> push_cast <;> linarith [hsum]
  · intro p adv hlo hhi hadv0
    obtain ⟨r1, r2, r3⟩ := rollLoop_invariant rh hrh (p + adv)
    have hq : -slotEps ≤ (rollLoop rh hrh (p + adv)).1 := r3 (by linarith)
    refine ⟨?_, hq, r2⟩
    refine (rotationCount_floor rh (p + adv) hrh _ ?_ ?_).symm <;> push_cast <;> linarith [r1]

/-- Witness for spin_rotation_count_amended at row height 64 and advances
100 and 3. -/
theorem spin_rotation_count_amended_witness :
    ((((runTicks 64 (by norm_num) [100, 3] 0).2 : ℤ)
          = ⌊(List.sum [(100 : ℚ), 3] + slotEps) / 64⌋ ∧
      (runTicks 64 (by norm_num) [100, 3] 0).1
          = List.sum [(100 : ℚ), 3] - ((runTicks 64 (by norm_num) [100, 3] 0).2 : ℚ) * 64 ∧
      -slotEps ≤ (runTicks 64 (by norm_num) [100, 3] 0).1 ∧
      (runTicks 64 (by norm_num) [100, 3] 0).1 < 64 - slotEps) ∧
     (∀ p adv : ℚ, -slotEps ≤ p → p < 64 - slotEps → 0 ≤ adv →
       ((rollLoop 64 (by norm_num) (p + adv)).2 : ℤ) = ⌊(p + adv + slotEps) / 64⌋ ∧
       -slotEps ≤ (rollLoop 64 (by norm_num) (p + adv)).1 ∧
       (rollLoop 64 (by norm_num) (p + adv)).1 < 64 - slotEps)) :=
  spin_rotation_count_amended 64 (by norm_num) (by norm_num [slotEps]) [100, 3] (by decide)

/-! ### Settle determinism (claim C4) -/

/-- The settle duration clamp evaluates to final_roll_time itself. -/
theorem settleClamp_eq : max (1 / 1000 : ℚ) finalRollTime = finalRollTime :=
  max_eq_right (by norm_num [finalRollTime])

/-- C4: once settling has been entered with entry phase at most one row
height, the settle phase is a pure function of the elapsed settle time that is
monotonically non-decreasing across ticks, and it equals exactly the row
height as soon as the settle progress ratio reaches 1.0 (elapsed settle time
at least final_roll_time), independent of the number and spacing of ticks. -/
theorem settle_monotone_and_exact (rh fsp : ℚ) (hle : fsp ≤ rh) :
    (∀ s1 s2 : ℚ, 0 ≤ s1 → s1 ≤ s2 → settlePhase rh fsp s1 ≤ settlePhase rh fsp s2) ∧
    (∀ s : ℚ, finalRollTime ≤ s → settleProgress s = 1 ∧ settlePhase rh fsp s = rh) := by
  have hTpos : (0 : ℚ) < finalRollTime := by norm_num [finalRollTime]
  constructor
  · intro s1 s2 h0 h12
    unfold settlePhase settleProgress
    rw [settleClamp_eq]
    have hp1 : (0 : ℚ) ≤ s1 / finalRollTime := div_nonneg h0 hTpos.le
    have hple : s1 / finalRollTime ≤ s2 / finalRollTime := by
      apply div_le_div_of_nonneg_right h12 hTpos.le
    have hm : min 1 (s1 / finalRollTime) ≤ min 1 (s2 / finalRollTime) :=
      min_le_min le_rfl hple
    have hm1 : min 1 (s2 / finalRollTime) ≤ 1 := min_le_left _ _
    have hm0 : (0 : ℚ) ≤ min 1 (s1 / finalRollTime) := le_min zero_le_one hp1
    have hcube : (1 - min 1 (s2 / finalRollTime)) ^ 3
        ≤ (1 - min 1 (s1 / finalRollTime)) ^ 3 :=
      pow_le_pow_left₀ (by linarith) (by linarith) 3
    have hmul : (rh - fsp) * (1 - (1 - min 1 (s1 / finalRollTime)) ^ 3)
        ≤ (rh - fsp) * (1 - (1 - min 1 (s2 / finalRollTime)) ^ 3) :=
      mul_le_mul_of_nonneg_left (by linarith) (by linarith)
    linarith
  · intro s hs
    have h1 : (1 : ℚ) ≤ s / finalRollTime := by
      rw [le_div_iff₀ hTpos]; linarith
    have hprog : settleProgress s = 1 := by
      unfold settleProgress
      rw [settleClamp_eq]
      exact min_eq_left h1
    refine ⟨hprog, ?_⟩
    unfold settlePhase
    rw [hprog]
    ring

/-- Witness for settle_monotone_and_exact with row height 64 and entry phase
10, at settle times 1/10 and 2/10 and at full progress. -/
theorem settle_monotone_and_exact_witness :
    settlePhase 64 10 (1 / 10) ≤ settlePhase 64 10 (2 / 10) ∧
    settleProgress 1 = 1 ∧ settlePhase 64 10 1 = 64 :=
  ⟨(settle_monotone_and_exact 64 10 (by norm_num)).1 (1 / 10) (2 / 10) (by norm_num)
      (by norm_num),
   (settle_monotone_and_exact 64 10 (by norm_num)).2 1 (by norm_num [finalRollTime])⟩

/-! ### Teardown suppression and the final display (claims C6 and C1) -/

/-- C6: after the slot window is torn down (on_close or escape drops the
liveness flag, or the window no longer exists), every subsequently delivered
tick callback, in both animation modes, returns the state unchanged (no
rotation event, no phase update, no pool mutation) and schedules no further
tick. -/
theorem teardown_suppresses_ticks (cfg : RoundCfg) (hrh : 0 < cfg.rowH)
    (winExists : Bool) (now adv : ℚ) (fillers : ℕ → String) (s : RoundSt) :
    (onCloseRound s).alive = false ∧
    (s.alive = false →
      frameTick cfg hrh winExists now adv fillers s = (s, false) ∧
      noEffectTick cfg winExists now s = (s, false)) ∧
    (winExists = false →
      frameTick cfg hrh winExists now adv fillers s = (s, false) ∧
      noEffectTick cfg winExists now s = (s, false)) := by
  refine ⟨rfl, fun h => ⟨?_, ?_⟩, fun h => ⟨?_, ?_⟩⟩ <;>
    simp [frameTick, noEffectTick, h]

/-- Witness for teardown_suppresses_ticks after on_close on a live spinning
state. -/
theorem teardown_suppresses_ticks_witness :
    frameTick ⟨64, 5, 0, "Alice"⟩ (by norm_num) true 1 1 (fun _ => "B")
        (onCloseRound ⟨true, 0, 0, false, 0, 0, "p", "c", "n", ["Alice", "Bob"], false⟩)
      = (onCloseRound ⟨true, 0, 0, false, 0, 0, "p", "c", "n", ["Alice", "Bob"], false⟩,
         false) ∧
    noEffectTick ⟨64, 5, 0, "Alice"⟩ true 1
        (onCloseRound ⟨true, 0, 0, false, 0, 0, "p", "c", "n", ["Alice", "Bob"], false⟩)
      = (onCloseRound ⟨true, 0, 0, false, 0, 0, "p", "c", "n", ["Alice", "Bob"], false⟩,
         false) :=
  (teardown_suppresses_ticks ⟨64, 5, 0, "Alice"⟩ (by norm_num) true 1 1 (fun _ => "B")
      (onCloseRound ⟨true, 0, 0, false, 0, 0, "p", "c", "n", ["Alice", "Bob"], false⟩)).2.1
    rfl

/-- C1: whenever a tick completes the round (the settle branch at full
progress in the slot-effect mode, or the elapsed-duration branch in the
effects-disabled mode), the student displayed in the center slot at DONE is
exactly the winner committed as final_student at round start, for every
animation history: any phase, any reel contents left by any number of filler
rotations, and any filler stream. -/
theorem final_display_matches_committed_winner (cfg : RoundCfg) (hrh : 0 < cfg.rowH)
    (now adv : ℚ) (fillers : ℕ → String) (s : RoundSt) :
    (s.alive = true → s.finalMode = true → s.finalStartTime + finalRollTime ≤ now →
      (frameTick cfg hrh true now adv fillers s).1.curName = cfg.finalStudent ∧
      (frameTick cfg hrh true now adv fillers s).1.done = true ∧
      (frameTick cfg hrh true now adv fillers s).2 = false) ∧
    (s.alive = true → cfg.startTime + cfg.duration ≤ now →
      (noEffectTick cfg true now s).1.curName = cfg.finalStudent ∧
      (noEffectTick cfg true now s).1.done = true ∧
      (noEffectTick cfg true now s).2 = false) := by
  constructor
  · intro halive hfm htime
    have hTpos : (0 : ℚ) < finalRollTime := by norm_num [finalRollTime]
    have hprog : 1 ≤ settleProgress (now - s.finalStartTime) := by
      unfold settleProgress
      rw [settleClamp_eq]
      refine le_min le_rfl ?_
      rw [le_div_iff₀ hTpos]; linarith
    simp [frameTick, halive, hfm, hprog]
  · intro halive htime
    have hd : cfg.duration ≤ now - cfg.startTime := by linarith
    simp [noEffectTick, halive, hd]

/-- Witness for final_display_matches_committed_winner: a settling state one
second after settle entry, and the same state in the effects-disabled mode
six seconds into a five-second round. -/
theorem final_display_matches_committed_winner_witness :
    ((frameTick ⟨64, 5, 0, "Alice"⟩ (by norm_num) true 1 0 (fun _ => "B")
        ⟨true, 10, 0, true, 0, 10, "p", "c", "n", ["Alice", "Bob"], false⟩).1.curName
      = "Alice" ∧
     (frameTick ⟨64, 5, 0, "Alice"⟩ (by norm_num) true 1 0 (fun _ => "B")
        ⟨true, 10, 0, true, 0, 10, "p", "c", "n", ["Alice", "Bob"], false⟩).1.done = true ∧
     (frameTick ⟨64, 5, 0, "Alice"⟩ (by norm_num) true 1 0 (fun _ => "B")
        ⟨true, 10, 0, true, 0, 10, "p", "c", "n", ["Alice", "Bob"], false⟩).2 = false) ∧
    ((noEffectTick ⟨64, 5, 0, "Alice"⟩ true 6
        ⟨true, 10, 0, false, 0, 10, "p", "c", "n", ["Alice", "Bob"], false⟩).1.curName
      = "Alice" ∧
     (noEffectTick ⟨64, 5, 0, "Alice"⟩ true 6
        ⟨true, 10, 0, false, 0, 10, "p", "c", "n", ["Alice", "Bob"], false⟩).1.done = true ∧
     (noEffectTick ⟨64, 5, 0, "Alice"⟩ true 6
        ⟨true, 10, 0, false, 0, 10, "p", "c", "n", ["Alice", "Bob"], false⟩).2 = false) :=
  ⟨(final_display_matches_committed_winner ⟨64, 5, 0, "Alice"⟩ (by norm_num) 1 0
      (fun _ => "B") ⟨true, 10, 0, true, 0, 10, "p", "c", "n", ["Alice", "Bob"], false⟩).1
      rfl rfl (by norm_num [finalRollTime]),
   (final_display_matches_committed_winner ⟨64, 5, 0, "Alice"⟩ (by norm_num) 6 0
      (fun _ => "B") ⟨true, 10, 0, false, 0, 10, "p", "c", "n", ["Alice", "Bob"], false⟩).2
      rfl (by norm_num)⟩

/-! ### De-duplication lemmas -/

/-- The kept list is duplicate-free and avoids the already-seen names. -/
theorem dedupGo_nodup (seen l : List String) :
    (dedupGo seen l).Nodup ∧ ∀ x ∈ dedupGo seen l, x ∉ seen := by
  induction l generalizing seen with
  | nil => simp [dedupGo]
  | cons x xs ih =>
    by_cases h : x ∈ seen
    · simp only [dedupGo, if_pos h]
      exact ih seen
    · simp only [dedupGo, if_neg h]
      obtain ⟨n1, n2⟩ := ih (x :: seen)
      refine ⟨List.nodup_cons.mpr ⟨?_, n1⟩, ?_⟩
      · intro hx
        exact (n2 x hx) (List.mem_cons_self x seen)
      · intro y hy
        rcases List.mem_cons.mp hy with rfl | hy2
        · exact h
        · intro hyseen
          exact (n2 y hy2) (List.mem_cons_of_mem x hyseen)

/-- The kept list is a subsequence of the input (first-seen order preserved). -/
theorem dedupGo_sublist (seen l : List String) : List.Sublist (dedupGo seen l) l := by
  induction l generalizing seen with
  | nil => simp [dedupGo]
  | cons x xs ih =>
    by_cases h : x ∈ seen
    · simp only [dedupGo, if_pos h]
      exact (ih seen).trans (List.sublist_cons_self x xs)
    · simp only [dedupGo, if_neg h]
      exact (ih (x :: seen)).cons₂ x

/-- Membership in the kept list. -/
theorem mem_dedupGo (seen l : List String) (x : String) :
    x ∈ dedupGo seen l ↔ x ∈ l ∧ x ∉ seen := by
  induction l generalizing seen with
  | nil => simp [dedupGo]
  | cons y ys ih =>
    by_cases h : y ∈ seen
    · simp only [dedupGo, if_pos h, ih, List.mem_cons]
      constructor
      · rintro ⟨hx, hns⟩
        exact ⟨Or.inr hx, hns⟩
      · rintro ⟨rfl | hx, hns⟩
        · exact absurd h hns
        · exact ⟨hx, hns⟩
    · simp only [dedupGo, if_neg h, List.mem_cons, ih]
      constructor
      · rintro (rfl | ⟨hx, hns⟩)
        · exact ⟨Or.inl rfl, h⟩
        · exact ⟨Or.inr hx, fun hs => hns (Or.inr hs)⟩
      · rintro ⟨rfl | hx, hns⟩
        · exact Or.inl rfl
        · by_cases hxy : x = y
          · exact Or.inl hxy
          · exact Or.inr ⟨hx, fun hm => hm.elim hxy hns⟩

/-- pyDedup yields a duplicate-free, order-preserving subsequence with the
same underlying set of names. -/
theorem pyDedup_spec (l : List String) :
    (pyDedup l).Nodup ∧ List.Sublist (pyDedup l) l ∧ (∀ x, x ∈ pyDedup l ↔ x ∈ l) := by
  refine ⟨(dedupGo_nodup [] l).1, dedupGo_sublist [] l, fun x => ?_⟩
  rw [pyDedup, mem_dedupGo]
  simp

/-! ### Loader lemmas (claim C8) -/

/-- Lookup commutes with the final per-class de-duplication pass. -/
theorem alookup_map_pyDedup (l : List (String × List String)) (c : String) :
    alookup c (l.map (fun p => (p.1, pyDedup p.2))) = (alookup c l).map pyDedup := by
  induction l with
  | nil => rfl
  | cons p rest ih =>
    by_cases h : p.1 = c <;> simp [alookup, h, ih]

/-- Appending a row whose stripped class or student field is blank does not
change the result of the row loop. -/
theorem loadLoop_append_skip (r : List String)
    (hr : pyStrip (r.getD 0 "") = "" ∨ pyStrip (r.getD 1 "") = "") :
    ∀ (rows : List (List String)) (first : Bool) (acc : List (String × List String)),
      loadLoop (rows ++ [r]) first acc = loadLoop rows first acc := by
  intro rows
  induction rows with
  | nil =>
    intro first acc
    simp only [List.nil_append, loadLoop]
    split_ifs with h1 h2 h3
    · rfl
    · rfl
    · rfl
    · exfalso
      apply h3
      simp only [List.getD_eq_getElem?_getD] at hr
      rcases hr with hr | hr <;> simp [hr]
  | cons row rest ih =>
    intro first acc
    simp only [List.cons_append, loadLoop]
    split_ifs <;> apply ih

/-- C8: load_students_by_class raises the fatal missing-file error when the
roster file is absent; a row whose stripped class or student field is blank is
skipped (appending it changes nothing); and each per-class list is
de-duplicated preserving first-seen order: the stored list is the
duplicate-free, order-preserving subsequence of the raw per-class column with
the same set of names. -/
theorem loader_dedup_blank_skip_missing_file :
    loadStudentsByClass none = Except.error "Missing roster file" ∧
    (∀ (rows : List (List String)) (r : List String),
      pyStrip (r.getD 0 "") = "" ∨ pyStrip (r.getD 1 "") = "" →
      loadStudentsByClass (some (rows ++ [r])) = loadStudentsByClass (some rows)) ∧
    (∀ (rows : List (List String)) (c : String) (l : List String),
      alookup c (loadLoop rows true []) = some l →
      (∃ m, loadStudentsByClass (some rows) = Except.ok m ∧
            alookup c m = some (pyDedup l)) ∧
      (pyDedup l).Nodup ∧ List.Sublist (pyDedup l) l ∧ (∀ x, x ∈ pyDedup l ↔ x ∈ l)) := by
  refine ⟨rfl, ?_, ?_⟩
  · intro rows r hr
    simp only [loadStudentsByClass]
    rw [loadLoop_append_skip r hr rows true []]
  · intro rows c l hl
    obtain ⟨d1, d2, d3⟩ := pyDedup_spec l
    have hm : loadStudentsByClass (some rows)
        = Except.ok ((loadLoop rows true []).map (fun p => (p.1, pyDedup p.2))) := rfl
    refine ⟨⟨(loadLoop rows true []).map (fun p => (p.1, pyDedup p.2)), hm, ?_⟩, d1, d2, d3⟩
    rw [alookup_map_pyDedup, hl]
    rfl

/-- Witness for loader_dedup_blank_skip_missing_file on a roster with a
repeated student and a blank-student row. -/
theorem loader_dedup_blank_skip_missing_file_witness :
    loadStudentsByClass (some ([["7A", "Alice"], ["7A", "Bob"], ["7A", "Alice"]] ++
        [["7A", "   "]]))
      = loadStudentsByClass (some [["7A", "Alice"], ["7A", "Bob"], ["7A", "Alice"]]) ∧
    (∃ m, loadStudentsByClass
            (some [["7A", "Alice"], ["7A", "Bob"], ["7A", "Alice"]]) = Except.ok m ∧
          alookup "7A" m = some (pyDedup ["Alice", "Bob", "Alice"])) ∧
    (pyDedup ["Alice", "Bob", "Alice"]).Nodup :=
  ⟨(loader_dedup_blank_skip_missing_file).2.1
      [["7A", "Alice"], ["7A", "Bob"], ["7A", "Alice"]] ["7A", "   "] (Or.inr (by decide)),
   ((loader_dedup_blank_skip_missing_file).2.2
      [["7A", "Alice"], ["7A", "Bob"], ["7A", "Alice"]] "7A" ["Alice", "Bob", "Alice"]
      (by decide)).1,
   ((loader_dedup_blank_skip_missing_file).2.2
      [["7A", "Alice"], ["7A", "Bob"], ["7A", "Alice"]] "7A" ["Alice", "Bob", "Alice"]
      (by decide)).2.1⟩

/-! ### Session lemmas (claims C2 and C9) -/

/-- The committed winner is always a member of a non-empty pool. -/
theorem pickFrom_mem (pool : List String) (pick : ℕ) (h : pool ≠ []) :
    pickFrom pool pick ∈ pool := by
  have hlen : 0 < pool.length := List.length_pos.mpr h
  unfold pickFrom
  rw [List.getD_eq_getElem pool "" (Nat.mod_lt _ hlen)]
  exact List.getElem_mem _

/-- Invariants of a round sequence over a duplicate-free pool: the winners are
pairwise distinct members of the initial pool, and the remaining pool is a
duplicate-free subsequence whose length drops by one per completed round. -/
theorem runSession_spec (picks : List ℕ) :
    ∀ pool : List String, pool.Nodup →
      (runSession picks pool).1.Nodup ∧
      (∀ w ∈ (runSession picks pool).1, w ∈ pool) ∧
      List.Sublist (runSession picks pool).2 pool ∧
      (runSession picks pool).2.Nodup ∧
      (runSession picks pool).2.length = pool.length - min picks.length pool.length := by
  induction picks with
  | nil =>
    intro pool h
    simp [runSession, h]
  | cons pick picks ih =>
    intro pool h
    by_cases hp : pool = []
    · subst hp
      simp [runSession]
    · have hw : pickFrom pool pick ∈ pool := pickFrom_mem pool pick hp
      have hlen : 0 < pool.length := List.length_pos.mpr hp
      obtain ⟨i1, i2, i3, i4, i5⟩ := ih (pool.erase (pickFrom pool pick)) (h.erase _)
      have herase_len : (pool.erase (pickFrom pool pick)).length = pool.length - 1 :=
        List.length_erase_of_mem hw
      have hsub : List.Sublist (pool.erase (pickFrom pool pick)) pool :=
        List.erase_sublist _ _
      simp only [runSession, if_neg hp, completeRound, removeWinner]
      refine ⟨?_, ?_, i3.trans hsub, i4, ?_⟩
      · refine List.nodup_cons.mpr ⟨?_, i1⟩
        intro hmem
        exact h.not_mem_erase (i2 _ hmem)
      · intro w hwmem
        rcases List.mem_cons.mp hwmem with rfl | hmem
        · exact hw
        · exact hsub.subset (i2 _ hmem)
      · simp only [List.length_cons]
        rw [i5, herase_len]
        omega

/-- C2: starting from a duplicate-free session pool of size k and completing
k rounds, every student wins at most once (the winners are pairwise
distinct members of the initial pool), the pool ends empty, and the next call
of _next_student routes to the grades summary. -/
theorem session_no_reselection_and_summary (pool : List String) (picks : List ℕ)
    (hnd : pool.Nodup) (hlen : picks.length = pool.length) :
    (runSession picks pool).1.Nodup ∧
    (∀ w ∈ (runSession picks pool).1, w ∈ pool) ∧
    (runSession picks pool).2 = [] ∧
    (∀ pick, nextStudent false (runSession picks pool).2 pick = NextOutcome.summary) := by
  obtain ⟨i1, i2, _, _, i5⟩ := runSession_spec picks pool hnd
  rw [hlen, min_self, Nat.sub_self] at i5
  have hempty : (runSession picks pool).2 = [] := List.length_eq_zero.mp i5
  refine ⟨i1, i2, hempty, fun pick => ?_⟩
  rw [hempty]
  simp [nextStudent]

/-- Witness for session_no_reselection_and_summary on a three-student pool
with three rounds. -/
theorem session_no_reselection_and_summary_witness :
    (runSession [2, 0, 1] ["Alice", "Bob", "Carol"]).1.Nodup ∧
    (runSession [2, 0, 1] ["Alice", "Bob", "Carol"]).2 = [] ∧
    nextStudent false (runSession [2, 0, 1] ["Alice", "Bob", "Carol"]).2 0
      = NextOutcome.summary :=
  ⟨(session_no_reselection_and_summary ["Alice", "Bob", "Carol"] [2, 0, 1]
      (by decide) rfl).1,
   (session_no_reselection_and_summary ["Alice", "Bob", "Carol"] [2, 0, 1]
      (by decide) rfl).2.2.1,
   (session_no_reselection_and_summary ["Alice", "Bob", "Carol"] [2, 0, 1]
      (by decide) rfl).2.2.2 0⟩

/-- C9: a session pool seeded from a class list produced by
load_students_by_class stays pairwise distinct and an order-preserving
subsequence of that roster after any number of completed rounds, each further
completed round shrinks it by exactly one element, and since the removal is
guarded by membership, a second removal attempt for the same winner would
leave the pool unchanged. -/
theorem session_pool_invariants (rows : List (List String))
    (m : List (String × List String)) (c : String) (roster : List String)
    (hload : loadStudentsByClass (some rows) = Except.ok m)
    (hc : alookup c m = some roster) (picks : List ℕ) :
    (runSession picks roster).2.Nodup ∧
    List.Sublist (runSession picks roster).2 roster ∧
    (∀ pick, (runSession picks roster).2 ≠ [] →
      (completeRound (runSession picks roster).2 pick).2.length + 1
          = (runSession picks roster).2.length ∧
      ((completeRound (runSession picks roster).2 pick).2).erase
          (completeRound (runSession picks roster).2 pick).1
        = (completeRound (runSession picks roster).2 pick).2) := by
  have hm2 : Except.ok ((loadLoop rows true []).map (fun p => (p.1, pyDedup p.2)))
      = Except.ok (ε := String) m := hload
  have hm : m = (loadLoop rows true []).map (fun p => (p.1, pyDedup p.2)) :=
    (Except.ok.inj hm2).symm
  have hnd : roster.Nodup := by
    rw [hm, alookup_map_pyDedup] at hc
    obtain ⟨l0, _, hrd⟩ := Option.map_eq_some'.mp hc
    rw [hrd.symm]
    exact (pyDedup_spec l0).1
  obtain ⟨_, _, i3, i4, _⟩ := runSession_spec picks roster hnd
  refine ⟨i4, i3, fun pick hne => ?_⟩
  have hw : pickFrom (runSession picks roster).2 pick ∈ (runSession picks roster).2 :=
    pickFrom_mem _ pick hne
  have hlen : 0 < (runSession picks roster).2.length := List.length_pos.mpr hne
  constructor
  · simp only [completeRound, removeWinner]
    rw [List.length_erase_of_mem hw]
    omega
  · simp only [completeRound, removeWinner]
    exact List.erase_of_not_mem (i4.not_mem_erase)

/-- Witness for session_pool_invariants on a two-student roster loaded from a
two-row file, after one completed round. -/
theorem session_pool_invariants_witness :
    (runSession [0] ["Alice", "Bob"]).2.Nodup ∧
    List.Sublist (runSession [0] ["Alice", "Bob"]).2 ["Alice", "Bob"] ∧
    (completeRound (runSession [0] ["Alice", "Bob"]).2 0).2.length + 1
        = (runSession [0] ["Alice", "Bob"]).2.length :=
  ⟨(session_pool_invariants [["7A", "Alice"], ["7A", "Bob"]]
      [("7A", ["Alice", "Bob"])] "7A" ["Alice", "Bob"] rfl (by decide) [0]).1,
   (session_pool_invariants [["7A", "Alice"], ["7A", "Bob"]]
      [("7A", ["Alice", "Bob"])] "7A" ["Alice", "Bob"] rfl (by decide) [0]).2.1,
   ((session_pool_invariants [["7A", "Alice"], ["7A", "Bob"]]
      [("7A", ["Alice", "Bob"])] "7A" ["Alice", "Bob"] rfl (by decide) [0]).2.2 0
      (by decide)).1⟩

/-! ### _start_session error paths and depleted-pool behavior (claims C5, C10) -/

/-- C5: for an invalid class selection (the placeholder or an unknown class
name) and for a selected class whose roster is empty, _start_session surfaces
a user-visible error and aborts: no round starts, and the session pools, grade
books and active class are untouched; in particular no session pool entry is
created for that class.  (Only the sticky UI exit flag, which _start_session
clears unconditionally on entry, is written.) -/
theorem start_session_error_paths_no_mutation (app : AppState) (selected : String)
    (pick : ℕ) :
    ((pyStrip selected = "Select a Class" ∨
        alookup (pyStrip selected) app.classes = none) →
      (startSession app selected pick).2
          = StartOutcome.uerror "Please select a valid class." ∧
      (startSession app selected pick).1.sessionPools = app.sessionPools ∧
      (startSession app selected pick).1.gradeBooks = app.gradeBooks ∧
      (startSession app selected pick).1.activeClass = app.activeClass) ∧
    (pyStrip selected ≠ "Select a Class" →
     alookup (pyStrip selected) app.classes = some [] →
     alookup (pyStrip selected) app.sessionPools = none →
      (startSession app selected pick).2
          = StartOutcome.uerror ("No students found for " ++ pyStrip selected ++ ".") ∧
      (startSession app selected pick).1.sessionPools = app.sessionPools ∧
      (startSession app selected pick).1.gradeBooks = app.gradeBooks ∧
      (startSession app selected pick).1.activeClass = app.activeClass ∧
      alookup (pyStrip selected) (startSession app selected pick).1.sessionPools
        = none) := by
  constructor
  · intro h
    rcases h with h | h <;> simp [startSession, h]
  · intro h1 h2 h3
    simp [startSession, h1, h2, h3]

/-- Witness for start_session_error_paths_no_mutation: an unknown class name,
and a known class with an empty roster and no existing pool entry. -/
theorem start_session_error_paths_no_mutation_witness :
    ((startSession ⟨[("7A", ["Alice"])], [], [], none, true⟩ "Nope" 0).2
        = StartOutcome.uerror "Please select a valid class." ∧
     (startSession ⟨[("7A", ["Alice"])], [], [], none, true⟩ "Nope" 0).1.sessionPools
        = [] ∧
     (startSession ⟨[("7A", ["Alice"])], [], [], none, true⟩ "Nope" 0).1.gradeBooks
        = [] ∧
     (startSession ⟨[("7A", ["Alice"])], [], [], none, true⟩ "Nope" 0).1.activeClass
        = none) ∧
    ((startSession ⟨[("7B", [])], [], [], none, false⟩ "7B" 0).2
        = StartOutcome.uerror ("No students found for " ++ pyStrip "7B" ++ ".") ∧
     alookup (pyStrip "7B")
        (startSession ⟨[("7B", [])], [], [], none, false⟩ "7B" 0).1.sessionPools
        = none) :=
  ⟨(start_session_error_paths_no_mutation ⟨[("7A", ["Alice"])], [], [], none, true⟩
      "Nope" 0).1 (Or.inr (by decide)),
   ⟨((start_session_error_paths_no_mutation ⟨[("7B", [])], [], [], none, false⟩
        "7B" 0).2 (by decide) (by decide) (by decide)).1,
    ((start_session_error_paths_no_mutation ⟨[("7B", [])], [], [], none, false⟩
        "7B" 0).2 (by decide) (by decide) (by decide)).2.2.2.2⟩⟩

/-- C10: in the latest revision, calling _start_session for a class whose
persisted session pool is already depleted (non-empty roster, existing empty
pool entry) opens the grades summary directly: no error, no round, and the
session pools are not mutated. -/
theorem depleted_pool_opens_summary (app : AppState) (selected : String) (pick : ℕ)
    (roster : List String) (h1 : pyStrip selected ≠ "Select a Class")
    (h2 : alookup (pyStrip selected) app.classes = some roster) (hroster : roster ≠ [])
    (h4 : alookup (pyStrip selected) app.sessionPools = some []) :
    (startSession app selected pick).2 = StartOutcome.summary ∧
    (startSession app selected pick).1.sessionPools = app.sessionPools := by
  have _ := hroster
  by_cases hg : alookup (pyStrip selected) app.gradeBooks = none <;>
    simp [startSession, continueStart, h1, h2, h4, hg]

/-- Witness for depleted_pool_opens_summary: class 7A with roster [Alice] and
an exhausted session pool entry. -/
theorem depleted_pool_opens_summary_witness :
    (startSession ⟨[("7A", ["Alice"])], [("7A", [])], [], none, false⟩ "7A" 0).2
        = StartOutcome.summary ∧
    (startSession ⟨[("7A", ["Alice"])], [("7A", [])], [], none, false⟩ "7A" 0).1.sessionPools
        = [("7A", [])] :=
  depleted_pool_opens_summary ⟨[("7A", ["Alice"])], [("7A", [])], [], none, false⟩
    "7A" 0 ["Alice"] (by decide) (by decide) (by decide) (by decide)

/-! ### The spinning speed computation (claim C7) -/

/-- C7: on every spinning tick the target angular speed is
min_speed + (max_speed - min_speed) * (1 - t)^p with the clamped normalized
progress t and exponent p = 2.1 strictly greater than 2, and the instantaneous
speed is obtained by blending the previous speed toward that target with the
exponential low-pass factor min(1, dt/tau) rather than being assigned the
target directly: for any tick with 0 < dt < tau whose current speed differs
from the target, the updated speed still differs from the target and is
strictly closer to it. -/
theorem spin_speed_curve_and_lowpass (cur elapsed duration dt : ℝ)
    (hdt : 0 < dt) (hdtlt : dt < speedSmoothTau)
    (hne : cur ≠ targetRowsPerSec (clampT elapsed duration)) :
    2 < spinEaseExp ∧
    targetRowsPerSec (clampT elapsed duration)
      = minRowsPerSec + (maxRowsPerSec - minRowsPerSec)
          * (1 - clampT elapsed duration) ^ spinEaseExp ∧
    spinSpeedTick cur elapsed duration dt
      = cur + (targetRowsPerSec (clampT elapsed duration) - cur)
          * min 1 (dt / max 0.001 speedSmoothTau) ∧
    spinSpeedTick cur elapsed duration dt ≠ targetRowsPerSec (clampT elapsed duration) ∧
    |spinSpeedTick cur elapsed duration dt - targetRowsPerSec (clampT elapsed duration)|
      < |cur - targetRowsPerSec (clampT elapsed duration)| := by
  have htaupos : (0 : ℝ) < speedSmoothTau := by norm_num [speedSmoothTau]
  have htau : max (0.001 : ℝ) speedSmoothTau = speedSmoothTau :=
    max_eq_right (by norm_num [speedSmoothTau])
  have ha1 : dt / speedSmoothTau < 1 := (div_lt_one htaupos).mpr hdtlt
  have ha0 : 0 < dt / speedSmoothTau := div_pos hdt htaupos
  have halpha : smoothAlpha dt = dt / speedSmoothTau := by
    unfold smoothAlpha
    rw [htau]
    exact min_eq_right ha1.le
  have hdiff : spinSpeedTick cur elapsed duration dt
      - targetRowsPerSec (clampT elapsed duration)
      = (cur - targetRowsPerSec (clampT elapsed duration)) * (1 - dt / speedSmoothTau) := by
    unfold spinSpeedTick smoothedSpeed
    rw [halpha]
    ring
  have hsubne : cur - targetRowsPerSec (clampT elapsed duration) ≠ 0 := sub_ne_zero.mpr hne
  refine ⟨by norm_num [spinEaseExp], rfl, rfl, ?_, ?_⟩
  · intro heq
    have h0 : (cur - targetRowsPerSec (clampT elapsed duration))
        * (1 - dt / speedSmoothTau) = 0 := by
      rw [hdiff.symm, heq, sub_self]
    exact (mul_ne_zero hsubne (by linarith)) h0
  · rw [hdiff, abs_mul, abs_of_pos (by linarith : (0 : ℝ) < 1 - dt / speedSmoothTau)]
    exact mul_lt_of_lt_one_right (abs_pos.mpr hsubne) (by linarith)

/-- Witness for spin_speed_curve_and_lowpass at current speed 0, a tick of
90 milliseconds, and progress t = 0 (where the target speed is 7.5). -/
theorem spin_speed_curve_and_lowpass_witness :
    2 < spinEaseExp ∧
    spinSpeedTick 0 0 1 0.09 ≠ targetRowsPerSec (clampT 0 1) ∧
    |spinSpeedTick 0 0 1 0.09 - targetRowsPerSec (clampT 0 1)|
      < |0 - targetRowsPerSec (clampT 0 1)| := by
  have hc : clampT 0 1 = 0 := by
    unfold clampT
    rw [max_eq_right (by norm_num : (0.001 : ℝ) ≤ 1), zero_div,
      min_eq_right (by norm_num : (0 : ℝ) ≤ 1), max_self]
  have ht : targetRowsPerSec 0 = 7.5 := by
    unfold targetRowsPerSec minRowsPerSec maxRowsPerSec
    rw [sub_zero, Real.one_rpow]
    norm_num
  have hne : (0 : ℝ) ≠ targetRowsPerSec (clampT 0 1) := by
    rw [hc, ht]
    norm_num
  obtain ⟨w1, _, _, w4, w5⟩ := spin_speed_curve_and_lowpass 0 0 1 0.09 (by norm_num)
    (by norm_num [speedSmoothTau]) hne
  exact ⟨w1, w4, w5⟩
